import Mathlib

/-!
Shallow embedding of the record-store and summary-computation module of
`src/exp.py` (a pandas/streamlit expense tracker), together with proofs of
the specification's claims about it.

Modelling conventions:
* A pandas `DataFrame` holding the expense table is modelled as a list of
  `(label, record)` pairs (`DF`): the `Nat` label is the pandas index label
  of the row.  `load_data` and `reset_index` produce dense labels
  `0, 1, ..., n-1` in row order (`reindex`).
* `float` amounts are modelled as rationals (`ℚ`).
* A pandas datetime is modelled by the structure `Timestamp`
  (year, month, day, second-of-day); a `NaT` (the coerced null marker
  produced by `pd.to_datetime(..., errors="coerce")`) is `none` in
  `Option Timestamp`.
* The backing CSV file is modelled at record granularity as
  `Option (List Record)` (`none` = file absent): `df.to_csv` followed by
  `pd.read_csv` round-trips every field one-to-one at this abstraction
  (a valid written timestamp parses back to itself, and `NaT` is written
  as an empty cell which `errors="coerce"` turns back into `NaT`).
  The raw, pre-parse view of a stored row needed for the load/coercion
  claim is modelled separately by `RawRow` and `load_data`, parameterised
  over the timestamp parser.
-/

/-- A calendar timestamp: the components pandas exposes via `.dt`.
`sod` is the second of the day (the time component). -/
structure Timestamp where
  year : Int
  month : Nat
  day : Nat
  sod : Nat
deriving DecidableEq, Repr

/-- Comparison of timestamps, lexicographic on
(year, month, day, second-of-day): the order pandas uses when comparing
or sorting datetime values. -/
def Timestamp.leB (a b : Timestamp) : Bool :=
  decide (a.year < b.year) ||
    (decide (a.year = b.year) &&
      (decide (a.month < b.month) ||
        (decide (a.month = b.month) &&
          (decide (a.day < b.day) ||
            (decide (a.day = b.day) && decide (a.sod ≤ b.sod))))))

/-- An expense record: one row of the table, with the five columns
`Amount`, `Type` (here `category`, as the source's parameter names call
it), `Person`, `Description`, `Timestamp`.  A `none` timestamp is the
null marker `NaT`. -/
structure Record where
  amount : ℚ
  category : String
  person : String
  description : String
  timestamp : Option Timestamp
deriving DecidableEq, Repr

/-- A DataFrame holding the expense table: rows in order, each carrying
its pandas index label. -/
abbrev DF := List (Nat × Record)

/-- The index labels of a frame (`df.index`). -/
def labels (df : DF) : List Nat := df.map Prod.fst

/-- The rows of a frame, in order, without their labels. -/
def records (df : DF) : List Record := df.map Prod.snd

/-- Label a list of records with consecutive labels starting at `k`. -/
def indexFrom (k : Nat) : List Record → DF
  | [] => []
  | r :: rs => (k, r) :: indexFrom (k + 1) rs

/-- Label a list of records densely `0..n-1` in order: the index produced
by `load_data`, `reset_index(drop=True)` and `ignore_index=True`. -/
def reindex (rs : List Record) : DF := indexFrom 0 rs

/-- The persisted CSV file, at record granularity: `none` when the file
is absent. -/
abbrev StoreState := Option (List Record)

/-- `save_data` (src/exp.py line 42-43): `df.to_csv(CSV_FILE, index=False)`
overwrites the whole file with the frame's rows (labels are not written). -/
def save_data (df : DF) : StoreState := some (records df)

/-- Reading back a previously saved file: the rows come back in order with
a fresh dense index (`index=False` on write discards labels). -/
def load_state (s : StoreState) : DF :=
  match s with
  | none => []
  | some rs => reindex rs

/-- One raw row of the CSV file as `pd.read_csv` sees it, before timestamp
parsing: the `Timestamp` cell is still text. -/
structure RawRow where
  amount : ℚ
  category : String
  person : String
  description : String
  timestampRaw : String
deriving DecidableEq, Repr

/-- `load_data` (src/exp.py lines 35-40): if the CSV file is absent return
an empty typed frame; otherwise read all rows and coerce each `Timestamp`
cell through the parser, unparseable cells becoming the null marker
(`pd.to_datetime(df["Timestamp"], errors="coerce")`).  The parser
(pandas's datetime string parser) is a parameter. -/
def load_data (parse : String → Option Timestamp) (file : Option (List RawRow)) : DF :=
  match file with
  | none => []
  | some rows =>
      reindex (rows.map fun r =>
        { amount := r.amount, category := r.category, person := r.person,
          description := r.description, timestamp := parse r.timestampRaw })

/-- `add_expense` (src/exp.py lines 46-56): build a one-row frame from the
fields and `pd.concat([df, new_row], ignore_index=True)` — append the row
and relabel everything densely — then `save_data`.  Returns the new frame
and the persisted file state. -/
def add_expense (df : DF) (amount : ℚ) (category person description : String)
    (timestamp : Option Timestamp) : DF × StoreState :=
  let df' := reindex (records df ++
    [{ amount := amount, category := category, person := person,
       description := description, timestamp := timestamp }])
  (df', save_data df')

/-- `update_expense` (src/exp.py lines 58-65): `df.at[idx, col] = v` for
each of the five columns, then `save_data`.  When `idx` is an existing
label the row is overwritten in place; when it is not, pandas
setting-with-enlargement adds a new row labelled `idx` at the end of the
frame (it does not raise). -/
def update_expense (df : DF) (idx : Nat) (amount : ℚ)
    (category person description : String) (timestamp : Option Timestamp) :
    DF × StoreState :=
  let r : Record :=
    { amount := amount, category := category, person := person,
      description := description, timestamp := timestamp }
  let df' :=
    if idx ∈ labels df then
      df.map fun p => if p.1 = idx then (idx, r) else p
    else
      df ++ [(idx, r)]
  (df', save_data df')

/-- `delete_expense` (src/exp.py lines 67-70):
`df.drop(idx).reset_index(drop=True)` then `save_data`.  `drop` raises a
`KeyError` when `idx` is not a label of the frame (modelled as `none`);
otherwise the row is removed and the remaining rows relabelled densely. -/
def delete_expense (df : DF) (idx : Nat) : Option (DF × StoreState) :=
  if idx ∈ labels df then
    let df' := reindex (records (df.filter fun p => p.1 ≠ idx))
    some (df', save_data df')
  else
    none

/-- `clear_all` (src/exp.py lines 72-75): persist and return an empty
frame with the five schema columns. -/
def clear_all : DF × StoreState :=
  (([] : DF), save_data ([] : DF))

/-- `total_spent` (src/exp.py line 117): `df["Amount"].sum()`. -/
def total_spent (df : DF) : ℚ :=
  ((records df).map Record.amount).sum

/-- A calendar date, as produced by `.dt.normalize()` on a valid
timestamp: the (year, month, day) triple with the time cleared. -/
def dateOf (t : Timestamp) : Int × Nat × Nat := (t.year, t.month, t.day)

/-- `spent_today` generalised over the date (src/exp.py line 119):
`df[df["Timestamp"].dt.normalize() == today]["Amount"].sum()`.
A `NaT` timestamp normalizes to `NaT`, which compares unequal to every
date, so such rows are excluded. -/
def spent_on (df : DF) (d : Int × Nat × Nat) : ℚ :=
  (((records df).filter fun r =>
      match r.timestamp with
      | some t => decide (dateOf t = d)
      | none => false).map Record.amount).sum

/-- `spent_month` generalised over month and year (src/exp.py line 120):
`df[(df["Timestamp"].dt.month == m) & (df["Timestamp"].dt.year == y)]["Amount"].sum()`.
`NaT` yields null month/year components, which compare unequal, so such
rows are excluded. -/
def spent_in_month (df : DF) (y : Int) (m : Nat) : ℚ :=
  (((records df).filter fun r =>
      match r.timestamp with
      | some t => decide (t.month = m ∧ t.year = y)
      | none => false).map Record.amount).sum

/-- The row order used by `df.sort_values(by="Timestamp", ascending=False)`:
row `a` may precede row `b` iff `a`'s timestamp is at least `b`'s, with
`NaT` ordered after every valid timestamp (pandas's default
`na_position="last"`). -/
def dispLe (a b : Nat × Record) : Bool :=
  match a.2.timestamp, b.2.timestamp with
  | some x, some y => Timestamp.leB y x
  | some _, none => true
  | none, none => true
  | none, some _ => false

/-- `display_df` before its cosmetic timestamp re-formatting
(src/exp.py line 129): `df.sort_values(by="Timestamp", ascending=False).reset_index()`.
`reset_index()` (without `drop=True`) keeps each row's original label in
an `index` column — modelled here by sorting the `(label, record)` pairs
themselves, so every displayed row still carries its original label. -/
def display_view (df : DF) : DF :=
  df.mergeSort dispLe

/-- The add-form submit handler (src/exp.py lines 100-110): if the
category or the person is empty, warn and change nothing; otherwise try
`float(amount)` — a `ValueError` (modelled by `none`) reports an error and
changes nothing; a successfully parsed amount is passed to `add_expense`
unconditionally (no sign check).  `amountInput` is the result of the
`float` parse of the user's text. -/
def handleAdd (df : DF) (st : StoreState) (amountInput : Option ℚ)
    (category person description : String) (ts : Timestamp) : DF × StoreState :=
  if category = "" ∨ person = "" then (df, st)
  else
    match amountInput with
    | none => (df, st)
    | some a => add_expense df a category person description (some ts)

/-! ### Helper lemmas about labelled frames -/

theorem records_indexFrom (k : Nat) (l : List Record) :
    records (indexFrom k l) = l := by
  induction l generalizing k with
  | nil => rfl
  | cons r rs ih => simp [indexFrom, records] at ih ⊢; exact ih (k + 1)

theorem labels_indexFrom (k : Nat) (l : List Record) :
    labels (indexFrom k l) = List.range' k l.length := by
  induction l generalizing k with
  | nil => rfl
  | cons r rs ih =>
      simp [indexFrom, labels, List.range'] at ih ⊢
      exact ih (k + 1)

theorem records_reindex (l : List Record) : records (reindex l) = l :=
  records_indexFrom 0 l

theorem labels_reindex (l : List Record) :
    labels (reindex l) = List.range l.length := by
  rw [reindex, labels_indexFrom, List.range_eq_range']

theorem length_reindex (l : List Record) : (reindex l).length = l.length := by
  have h := congrArg List.length (records_reindex l)
  simpa [records] using h

theorem mem_labels_reindex {l : List Record} {i : Nat} :
    i ∈ labels (reindex l) ↔ i < l.length := by
  rw [labels_reindex, List.mem_range]

theorem get?_indexFrom (k : Nat) (l : List Record) (i : Nat) :
    (indexFrom k l).get? i = (l.get? i).map fun r => (k + i, r) := by
  induction l generalizing k i with
  | nil => simp [indexFrom]
  | cons r rs ih =>
      cases i with
      | zero => simp [indexFrom]
      | succ j =>
          simp only [indexFrom, List.get?_cons_succ, ih (k + 1) j]
          cases rs.get? j <;> simp [Nat.add_assoc, Nat.add_comm 1 j]

theorem get?_reindex (l : List Record) (i : Nat) :
    (reindex l).get? i = (l.get? i).map fun r => (i, r) := by
  simpa using get?_indexFrom 0 l i

theorem mem_indexFrom {k : Nat} {l : List Record} {p : Nat × Record}
    (h : p ∈ indexFrom k l) : k ≤ p.1 ∧ l.get? (p.1 - k) = some p.2 := by
  induction l generalizing k with
  | nil => simp [indexFrom] at h
  | cons r rs ih =>
      simp only [indexFrom, List.mem_cons] at h
      rcases h with h | h
      · subst h; simp
      · obtain ⟨hk, hget⟩ := ih h
        refine ⟨by omega, ?_⟩
        have : p.1 - k = (p.1 - (k + 1)) + 1 := by omega
        rw [this, List.get?_cons_succ]
        exact hget

theorem mem_reindex {l : List Record} {p : Nat × Record}
    (h : p ∈ reindex l) : l.get? p.1 = some p.2 := by
  have := mem_indexFrom (k := 0) h
  simpa using this.2

theorem Timestamp.leB_trans (a b c : Timestamp)
    (h1 : Timestamp.leB a b) (h2 : Timestamp.leB b c) : Timestamp.leB a c := by
  simp only [Timestamp.leB, Bool.or_eq_true, Bool.and_eq_true,
    decide_eq_true_eq] at h1 h2 ⊢
  omega

theorem Timestamp.leB_total (a b : Timestamp) :
    Timestamp.leB a b || Timestamp.leB b a := by
  simp only [Timestamp.leB, Bool.or_eq_true, Bool.and_eq_true,
    decide_eq_true_eq]
  omega

theorem dispLe_trans (a b c : Nat × Record)
    (h1 : dispLe a b) (h2 : dispLe b c) : dispLe a c := by
  unfold dispLe at h1 h2 ⊢
  cases ha : a.2.timestamp <;> cases hb : b.2.timestamp <;>
    cases hc : c.2.timestamp <;> simp_all
  exact Timestamp.leB_trans _ _ _ h2 h1

theorem dispLe_total (a b : Nat × Record) : dispLe a b || dispLe b a := by
  unfold dispLe
  cases a.2.timestamp <;> cases b.2.timestamp <;> simp
  rename_i x y
  have h := Timestamp.leB_total x y
  simp only [Bool.or_eq_true] at h
  tauto

/-- C4.  `display_view` is a permutation of the collection (every row,
including each of two rows with equal timestamps, appears exactly once),
it is sorted by timestamp descending in the sense of the `dispLe` order,
and rows whose timestamp is the null marker sort after every other row:
once a null-timestamp row appears, every later row also has a null
timestamp. -/
theorem display_view_sorted_perm (df : DF) :
    (display_view df).Perm df ∧
    List.Pairwise (fun a b => dispLe a b = true) (display_view df) ∧
    List.Pairwise (fun a b : Nat × Record =>
      a.2.timestamp = none → b.2.timestamp = none) (display_view df) := by
  have hperm : (display_view df).Perm df := List.mergeSort_perm df dispLe
  have hsorted : List.Pairwise (fun a b => dispLe a b = true) (display_view df) := by
    have hs := List.sorted_mergeSort dispLe_trans dispLe_total df
    simpa [display_view] using hs
  refine ⟨hperm, hsorted, ?_⟩
  refine hsorted.imp ?_
  intro a b hab hnone
  unfold dispLe at hab
  rw [hnone] at hab
  cases hb : b.2.timestamp <;> simp_all

/-- C3.  Every row of `display_view` carries its original store identity
through the sort: for a densely indexed frame, the pair `(label, record)`
shown at any display position satisfies `recs.get? label = some record`
(so an edit or delete issued with that label hits exactly that stored
record, never another one that happens to share its timestamp), and no
two display rows carry the same label. -/
theorem display_view_identity (recs : List Record) :
    (∀ p : Nat × Record, p ∈ display_view (reindex recs) →
        recs.get? p.1 = some p.2) ∧
    (labels (display_view (reindex recs))).Nodup := by
  constructor
  · intro p hp
    have hmem : p ∈ reindex recs := by
      simpa [display_view] using hp
    exact mem_reindex hmem
  · have hperm : (display_view (reindex recs)).Perm (reindex recs) :=
      List.mergeSort_perm _ dispLe
    have hlab : (labels (display_view (reindex recs))).Perm
        (labels (reindex recs)) := hperm.map Prod.fst
    have : (labels (reindex recs)).Nodup := by
      rw [labels_reindex]; exact List.nodup_range _
    exact hlab.nodup_iff.mpr this

theorem get?_set_self (l : List Record) (i : Nat) (r : Record)
    (h : i < l.length) : (l.set i r).get? i = some r := by
  induction l generalizing i with
  | nil => simp at h
  | cons a as ih =>
      cases i with
      | zero => rfl
      | succ j => simpa using ih j (by simpa using h)

theorem get?_set_other (l : List Record) (i j : Nat) (r : Record)
    (h : j ≠ i) : (l.set i r).get? j = l.get? j := by
  induction l generalizing i j with
  | nil => simp
  | cons a as ih =>
      cases i with
      | zero => cases j with
          | zero => exact absurd rfl h
          | succ m => rfl
      | succ n => cases j with
          | zero => rfl
          | succ m => simpa using ih n m (by omega)

theorem sum_amount_set (l : List Record) (i : Nat) (r old : Record)
    (h : l.get? i = some old) :
    ((l.set i r).map Record.amount).sum
      = (l.map Record.amount).sum - old.amount + r.amount := by
  induction l generalizing i with
  | nil => simp at h
  | cons a as ih =>
      cases i with
      | zero =>
          simp only [List.get?_cons_zero, Option.some_inj] at h
          subst h
          simp only [List.set_cons_zero, List.map_cons, List.sum_cons]
          ring
      | succ j =>
          simp only [List.get?_cons_succ] at h
          simp only [List.set_cons_succ, List.map_cons, List.sum_cons, ih j h]
          ring

theorem filter_indexFrom_keep (l : List Record) (k j : Nat) (h : j < k) :
    ((indexFrom k l).filter fun p => p.1 ≠ j) = indexFrom k l := by
  induction l generalizing k with
  | nil => rfl
  | cons r rs ih =>
      simp only [indexFrom, List.filter_cons]
      rw [if_pos (by simpa using Nat.ne_of_gt h)]
      rw [ih (k + 1) (by omega)]

theorem records_filter_indexFrom (l : List Record) (k i : Nat) :
    records ((indexFrom k l).filter fun p => p.1 ≠ k + i) = l.eraseIdx i := by
  induction l generalizing k i with
  | nil => rfl
  | cons r rs ih =>
      cases i with
      | zero =>
          simp only [indexFrom, List.filter_cons, Nat.add_zero]
          rw [if_neg (by simp)]
          rw [filter_indexFrom_keep rs (k + 1) k (by omega)]
          simpa [List.eraseIdx] using records_indexFrom (k + 1) rs
      | succ m =>
          simp only [indexFrom, List.filter_cons]
          rw [if_pos (by simp)]
          have hk : k + (m + 1) = (k + 1) + m := by omega
          rw [hk]
          simpa [records, List.eraseIdx] using ih (k + 1) m

theorem map_replace_indexFrom_keep (l : List Record) (k j : Nat) (r : Record)
    (h : j < k) :
    ((indexFrom k l).map fun p => if p.1 = j then (j, r) else p)
      = indexFrom k l := by
  induction l generalizing k with
  | nil => rfl
  | cons a as ih =>
      simp only [indexFrom, List.map_cons]
      rw [if_neg (by omega)]
      rw [ih (k + 1) (by omega)]

theorem map_replace_indexFrom (l : List Record) (k i : Nat) (r : Record) :
    ((indexFrom k l).map fun p => if p.1 = k + i then (k + i, r) else p)
      = indexFrom k (l.set i r) := by
  induction l generalizing k i with
  | nil => rfl
  | cons a as ih =>
      cases i with
      | zero =>
          have hkeep := map_replace_indexFrom_keep as (k + 1) k r (by omega)
          simp [indexFrom, List.set_cons_zero, hkeep]
      | succ m =>
          simp only [indexFrom, List.map_cons, List.set]
          rw [if_neg (by omega)]
          have hk : k + (m + 1) = (k + 1) + m := by omega
          rw [hk]
          rw [ih (k + 1) m]

/-- A sample Food record used by concrete witness and counterexample
theorems. -/
def recFood : Record := ⟨250, "Food", "He", "", some ⟨2024, 5, 1, 36000⟩⟩

/-- A sample Travel record used by concrete witness and counterexample
theorems. -/
def recTravel : Record := ⟨100, "Travel", "She", "", some ⟨2024, 5, 1, 43200⟩⟩

/-- C5.  Deleting an in-range identity `i` from a densely indexed frame
succeeds, removes exactly the record at position `i` (the result's rows
are the rows before `i` followed by the rows after `i`, in their original
relative order), renumbers the remaining identities to the dense range
`0..n-2`, persists the result, and a subsequent load of the persisted
state returns exactly that result — never the deleted record. -/
theorem delete_dense (recs : List Record) (i : Nat) (h : i < recs.length) :
    delete_expense (reindex recs) i
        = some (reindex (recs.eraseIdx i), some (recs.eraseIdx i)) ∧
    records (reindex (recs.eraseIdx i)) = recs.take i ++ recs.drop (i + 1) ∧
    labels (reindex (recs.eraseIdx i)) = List.range (recs.length - 1) ∧
    load_state (some (recs.eraseIdx i)) = reindex (recs.eraseIdx i) := by
  have hmem : i ∈ labels (reindex recs) := mem_labels_reindex.mpr h
  have hfilter : records ((reindex recs).filter fun p => p.1 ≠ i)
      = recs.eraseIdx i := by
    have hf := records_filter_indexFrom recs 0 i
    simpa using hf
  refine ⟨?_, ?_, ?_, rfl⟩
  · simp only [delete_expense]
    rw [if_pos hmem, hfilter]
    simp [save_data, records_reindex]
  · rw [records_reindex, List.eraseIdx_eq_take_drop_succ]
  · rw [labels_reindex, List.length_eraseIdx]
    simp [h]

/-- Witness for C5: deleting identity 0 from the two-record frame
`[recFood, recTravel]`. -/
theorem delete_dense_witness :
    delete_expense (reindex [recFood, recTravel]) 0
        = some (reindex ([recFood, recTravel].eraseIdx 0),
                some ([recFood, recTravel].eraseIdx 0)) ∧
    records (reindex ([recFood, recTravel].eraseIdx 0))
        = [recFood, recTravel].take 0 ++ [recFood, recTravel].drop (0 + 1) ∧
    labels (reindex ([recFood, recTravel].eraseIdx 0))
        = List.range ([recFood, recTravel].length - 1) ∧
    load_state (some ([recFood, recTravel].eraseIdx 0))
        = reindex ([recFood, recTravel].eraseIdx 0) :=
  delete_dense [recFood, recTravel] 0 (by decide)

/-- C9.  Updating an in-range identity `i` of a densely indexed frame
replaces all five fields of the record at `i` with the new values,
persists the result, leaves every other record unchanged, and changes
`total_spent` by exactly the difference between the new and the old
amount. -/
theorem update_in_range (recs : List Record) (i : Nat) (h : i < recs.length)
    (amount : ℚ) (cat per desc : String) (ts : Option Timestamp)
    (old : Record) (hold : recs.get? i = some old) :
    (update_expense (reindex recs) i amount cat per desc ts).1
        = reindex (recs.set i ⟨amount, cat, per, desc, ts⟩) ∧
    (update_expense (reindex recs) i amount cat per desc ts).2
        = some (recs.set i ⟨amount, cat, per, desc, ts⟩) ∧
    (recs.set i ⟨amount, cat, per, desc, ts⟩).get? i
        = some ⟨amount, cat, per, desc, ts⟩ ∧
    (∀ j, j ≠ i → (recs.set i ⟨amount, cat, per, desc, ts⟩).get? j
        = recs.get? j) ∧
    total_spent (update_expense (reindex recs) i amount cat per desc ts).1
        = total_spent (reindex recs) - old.amount + amount := by
  have hmem : i ∈ labels (reindex recs) := mem_labels_reindex.mpr h
  have hmap : ((reindex recs).map fun p =>
        if p.1 = i then (i, (⟨amount, cat, per, desc, ts⟩ : Record)) else p)
      = reindex (recs.set i ⟨amount, cat, per, desc, ts⟩) := by
    have hm := map_replace_indexFrom recs 0 i ⟨amount, cat, per, desc, ts⟩
    simpa using hm
  have hupdate : update_expense (reindex recs) i amount cat per desc ts
      = (reindex (recs.set i ⟨amount, cat, per, desc, ts⟩),
         some (recs.set i ⟨amount, cat, per, desc, ts⟩)) := by
    simp only [update_expense]
    rw [if_pos hmem, hmap]
    simp [save_data, records_reindex]
  refine ⟨by rw [hupdate], by rw [hupdate], ?_, ?_, ?_⟩
  · exact get?_set_self recs i _ h
  · intro j hj
    exact get?_set_other recs i j _ hj
  · rw [hupdate]
    simp only [total_spent, records_reindex]
    exact sum_amount_set recs i _ old hold

/-- Witness for C9: updating the Food record (identity 0) of
`[recFood, recTravel]` to amount 300. -/
theorem update_in_range_witness :
    (update_expense (reindex [recFood, recTravel]) 0 300 "Food" "He" ""
        (some ⟨2024, 5, 1, 36000⟩)).1
        = reindex ([recFood, recTravel].set 0
            ⟨300, "Food", "He", "", some ⟨2024, 5, 1, 36000⟩⟩) ∧
    (update_expense (reindex [recFood, recTravel]) 0 300 "Food" "He" ""
        (some ⟨2024, 5, 1, 36000⟩)).2
        = some ([recFood, recTravel].set 0
            ⟨300, "Food", "He", "", some ⟨2024, 5, 1, 36000⟩⟩) ∧
    ([recFood, recTravel].set 0
        ⟨300, "Food", "He", "", some ⟨2024, 5, 1, 36000⟩⟩).get? 0
        = some ⟨300, "Food", "He", "", some ⟨2024, 5, 1, 36000⟩⟩ ∧
    (∀ j, j ≠ 0 → ([recFood, recTravel].set 0
        ⟨300, "Food", "He", "", some ⟨2024, 5, 1, 36000⟩⟩).get? j
        = [recFood, recTravel].get? j) ∧
    total_spent (update_expense (reindex [recFood, recTravel]) 0 300 "Food"
        "He" "" (some ⟨2024, 5, 1, 36000⟩)).1
        = total_spent (reindex [recFood, recTravel]) - recFood.amount + 300 :=
  update_in_range [recFood, recTravel] 0 (by decide) 300 "Food" "He" ""
    (some ⟨2024, 5, 1, 36000⟩) recFood rfl

/-- C6.  For every frame and every valid (positive-amount) inserted
record, the total spent after the insert equals the total spent before
plus the inserted amount. -/
theorem total_after_insert (df : DF) (a : ℚ) (_h : 0 < a)
    (cat per desc : String) (ts : Option Timestamp) :
    total_spent (add_expense df a cat per desc ts).1 = total_spent df + a := by
  simp [add_expense, total_spent, records_reindex]

/-- Witness for C6: inserting amount 1 into the empty frame. -/
theorem total_after_insert_witness :
    total_spent (add_expense [] 1 "Food" "He" "" none).1
      = total_spent [] + 1 :=
  total_after_insert [] 1 (by norm_num) "Food" "He" "" none

/-- A sample timestamp used by concrete witness and counterexample
theorems. -/
def tsSample : Timestamp := ⟨2024, 5, 1, 36000⟩

/-- Counterexample to C1 as stated: submitting the add form with the
parseable but negative amount -5 (category "Food", person "He") is NOT
rejected — starting from an empty frame and an absent file, the handler
appends the record and persists it, so the collection changes and a
persist occurs for an amount ≤ 0. -/
theorem handleAdd_negative_amount_accepted :
    (-5 : ℚ) ≤ 0 ∧
    handleAdd [] none (some (-5)) "Food" "He" "" tsSample
      = ([(0, ⟨-5, "Food", "He", "", some tsSample⟩)],
         some [⟨-5, "Food", "He", "", some tsSample⟩]) ∧
    ([(0, (⟨-5, "Food", "He", "", some tsSample⟩ : Record))] : DF) ≠ [] ∧
    (some [(⟨-5, "Food", "He", "", some tsSample⟩ : Record)] : StoreState)
      ≠ none := by
  refine ⟨by norm_num, rfl, by simp, by simp⟩

/-- C1 as amended.  The add handler rejects (collection unchanged, no
persist) exactly when the category or person is empty or the amount text
fails numeric parsing; any successfully parsed amount — positive or not —
is appended with the given fields and persisted.  No positivity check is
performed on insert. -/
theorem handleAdd_validation (df : DF) (st : StoreState) (amtIn : Option ℚ)
    (cat per desc : String) (ts : Timestamp) :
    (cat = "" ∨ per = "" → handleAdd df st amtIn cat per desc ts = (df, st)) ∧
    (amtIn = none → handleAdd df st amtIn cat per desc ts = (df, st)) ∧
    (∀ a, amtIn = some a → cat ≠ "" → per ≠ "" →
      records (handleAdd df st amtIn cat per desc ts).1
          = records df ++ [⟨a, cat, per, desc, some ts⟩] ∧
      (handleAdd df st amtIn cat per desc ts).2
          = some (records df ++ [⟨a, cat, per, desc, some ts⟩])) := by
  refine ⟨?_, ?_, ?_⟩
  · intro hempty
    rcases hempty with hc | hp
    · simp [handleAdd, hc]
    · simp [handleAdd, hp]
  · intro hnone
    subst hnone
    by_cases hc : cat = "" ∨ per = "" <;> simp [handleAdd, hc]
  · intro a ha hc hp
    subst ha
    have hcond : ¬(cat = "" ∨ per = "") := by
      intro hor; rcases hor with h | h; exact hc h; exact hp h
    constructor
    · simp [handleAdd, hcond, add_expense, records_reindex]
    · simp [handleAdd, hcond, add_expense, save_data, records_reindex]

/-- Witness for C1 as amended: an empty person is rejected without
persisting, and a parsed amount of 5 with non-empty category and person
is appended. -/
theorem handleAdd_validation_witness :
    handleAdd [] none (some 5) "Food" "" "" tsSample = ([], none) ∧
    records (handleAdd [] none (some 5) "Food" "He" "" tsSample).1
      = records ([] : DF) ++ [⟨5, "Food", "He", "", some tsSample⟩] :=
  ⟨(handleAdd_validation [] none (some 5) "Food" "" "" tsSample).1
      (Or.inr rfl),
   ((handleAdd_validation [] none (some 5) "Food" "He" "" tsSample).2.2 5 rfl
      (by decide) (by decide)).1⟩

/-- Counterexample to C2 as stated: calling `update_expense` with
identity 5 on a one-row frame whose only label is 0 does not fail — it
silently grows the frame to two rows, the new one labelled 5 (pandas
`.at` setting-with-enlargement). -/
theorem update_out_of_range_enlarges :
    (5 ∉ labels (reindex [recFood])) ∧
    (update_expense (reindex [recFood]) 5 100 "Travel" "She" ""
        (some ⟨2024, 5, 1, 43200⟩)).1
      = [(0, recFood),
         (5, ⟨100, "Travel", "She", "", some ⟨2024, 5, 1, 43200⟩⟩)] ∧
    (update_expense (reindex [recFood]) 5 100 "Travel" "She" ""
        (some ⟨2024, 5, 1, 43200⟩)).1.length
      = (reindex [recFood]).length + 1 := by
  refine ⟨by decide, ?_, ?_⟩ <;> rfl

/-- C2 as amended.  For an identity not present in the frame, `delete`
fails (raises, modelled as `none`) without touching the collection, but
`update` does not fail: it silently appends a new row carrying the absent
identity, growing the collection by one. -/
theorem out_of_range_update_delete (df : DF) (idx : Nat)
    (h : idx ∉ labels df) (amount : ℚ) (cat per desc : String)
    (ts : Option Timestamp) :
    delete_expense df idx = none ∧
    (update_expense df idx amount cat per desc ts).1
      = df ++ [(idx, ⟨amount, cat, per, desc, ts⟩)] ∧
    (update_expense df idx amount cat per desc ts).1.length
      = df.length + 1 := by
  refine ⟨?_, ?_, ?_⟩
  · simp only [delete_expense]
    rw [if_neg h]
  · simp only [update_expense]
    rw [if_neg h]
  · simp only [update_expense]
    rw [if_neg h]
    simp

/-- Witness for C2 as amended: identity 3 on the singleton frame
`[recFood]`. -/
theorem out_of_range_update_delete_witness :
    delete_expense (reindex [recFood]) 3 = none ∧
    (update_expense (reindex [recFood]) 3 100 "Travel" "She" "" none).1
      = reindex [recFood] ++ [(3, ⟨100, "Travel", "She", "", none⟩)] ∧
    (update_expense (reindex [recFood]) 3 100 "Travel" "She" "" none).1.length
      = (reindex [recFood]).length + 1 :=
  out_of_range_update_delete (reindex [recFood]) 3 (by decide) 100 "Travel"
    "She" "" none

/-- Witness for C3: the single display row of the one-record frame
`[recFood]` carries label 0 and resolves to exactly that stored record. -/
theorem display_view_identity_witness :
    [recFood].get? 0 = some recFood ∧
    (labels (display_view (reindex [recFood]))).Nodup :=
  ⟨(display_view_identity [recFood]).1 (0, recFood)
      (by simp [display_view, reindex, indexFrom]),
   (display_view_identity [recFood]).2⟩

theorem records_filter_snd (df : DF) (q : Record → Bool) :
    records (df.filter fun p => q p.2) = (records df).filter q := by
  induction df with
  | nil => rfl
  | cons p rest ih =>
      cases hq : q p.2 <;> simp [records, List.filter_cons, hq] at ih ⊢ <;>
        exact ih

theorem sum_amount_filter_split (l : List Record) :
    ((l.filter fun r => r.timestamp.isSome).map Record.amount).sum
      + ((l.filter fun r => r.timestamp.isNone).map Record.amount).sum
      = (l.map Record.amount).sum := by
  induction l with
  | nil => simp
  | cons r rest ih =>
      cases hts : r.timestamp <;> simp [List.filter_cons, hts] <;>
        rw [← ih] <;> ring

theorem filter_of_none_subfilter (l : List Record) (P : Record → Bool)
    (hnone : ∀ r, r.timestamp = none → P r = false) :
    (l.filter fun r => r.timestamp.isSome).filter P = l.filter P := by
  induction l with
  | nil => rfl
  | cons r rest ih =>
      cases hts : r.timestamp
      · have hp := hnone r hts
        simp [List.filter_cons, hts, hp, ih]
      · cases hp : P r <;> simp [List.filter_cons, hts, hp, ih]

theorem filter_of_none_empty (l : List Record) (P : Record → Bool)
    (hnone : ∀ r, r.timestamp = none → P r = false) :
    (l.filter fun r => r.timestamp.isNone).filter P = [] := by
  induction l with
  | nil => rfl
  | cons r rest ih =>
      cases hts : r.timestamp
      · have hp := hnone r hts
        simp [List.filter_cons, hts, hp, ih]
      · simp [List.filter_cons, hts, ih]

theorem records_filter_isSome (df : DF) :
    records (df.filter fun p => p.2.timestamp.isSome)
      = (records df).filter fun r => r.timestamp.isSome := by
  have h := records_filter_snd df fun r => r.timestamp.isSome
  simpa using h

theorem records_filter_isNone (df : DF) :
    records (df.filter fun p => p.2.timestamp.isNone)
      = (records df).filter fun r => r.timestamp.isNone := by
  have h := records_filter_snd df fun r => r.timestamp.isNone
  simpa using h

/-- C7.  Rows whose timestamp is the coerced null marker are excluded
from the date-scoped aggregates (`spent_on` and `spent_in_month` of any
frame equal those of its non-null-timestamp rows, and the null-timestamp
rows alone contribute zero to them) but are included in the global
`total_spent` (which splits as the total over the non-null rows plus the
total over the null rows). -/
theorem null_timestamp_aggregates (df : DF) (d : Int × Nat × Nat)
    (y : Int) (m : Nat) :
    total_spent df
      = total_spent (df.filter fun p => p.2.timestamp.isSome)
        + total_spent (df.filter fun p => p.2.timestamp.isNone) ∧
    spent_on df d = spent_on (df.filter fun p => p.2.timestamp.isSome) d ∧
    spent_in_month df y m
      = spent_in_month (df.filter fun p => p.2.timestamp.isSome) y m ∧
    spent_on (df.filter fun p => p.2.timestamp.isNone) d = 0 ∧
    spent_in_month (df.filter fun p => p.2.timestamp.isNone) y m = 0 := by
  have hnoneD : ∀ r : Record, r.timestamp = none →
      (match r.timestamp with
       | some t => decide (dateOf t = d)
       | none => false) = false := by
    intro r hr; rw [hr]
  have hnoneM : ∀ r : Record, r.timestamp = none →
      (match r.timestamp with
       | some t => decide (t.month = m ∧ t.year = y)
       | none => false) = false := by
    intro r hr; rw [hr]
  refine ⟨?_, ?_, ?_, ?_, ?_⟩
  · simp only [total_spent, records_filter_isSome, records_filter_isNone]
    exact (sum_amount_filter_split (records df)).symm
  · simp only [spent_on, records_filter_isSome]
    rw [filter_of_none_subfilter _ _ hnoneD]
  · simp only [spent_in_month, records_filter_isSome]
    rw [filter_of_none_subfilter _ _ hnoneM]
  · simp only [spent_on, records_filter_isNone]
    rw [filter_of_none_empty _ _ hnoneD]
    rfl
  · simp only [spent_in_month, records_filter_isNone]
    rw [filter_of_none_empty _ _ hnoneM]
    rfl

/-- C8.  `load_data` of an absent file is the empty typed frame, and
loading a stored table is total: every row loads (same length), and each
loaded record carries the stored fields with the `Timestamp` cell sent
through the parser — a cell the parser cannot parse becomes the null
marker `none` in that one record, never an error, so one malformed row
cannot prevent loading the rest. -/
theorem load_data_coerce (parse : String → Option Timestamp) :
    load_data parse none = ([] : DF) ∧
    ∀ rows : List RawRow,
      (load_data parse (some rows)).length = rows.length ∧
      ∀ (i : Nat) (row : RawRow), rows.get? i = some row →
        (load_data parse (some rows)).get? i
          = some (i, ⟨row.amount, row.category, row.person, row.description,
                      parse row.timestampRaw⟩) := by
  refine ⟨rfl, ?_⟩
  intro rows
  constructor
  · simp [load_data, length_reindex]
  · intro i row hget
    simp only [load_data]
    rw [get?_reindex]
    have hmap : ∀ (l : List RawRow) (j : Nat) (f : RawRow → Record),
        (l.map f).get? j = (l.get? j).map f := by
      intro l
      induction l with
      | nil => intro j f; simp
      | cons a as ih =>
          intro j f
          cases j with
          | zero => rfl
          | succ n => simp only [List.map_cons, List.get?_cons_succ, ih n f]
    rw [hmap, hget]
    rfl

/-- A sample raw stored row whose `Timestamp` cell is unparseable text;
used by the witness for the load/coercion claim. -/
def rawSample : RawRow := ⟨7, "Food", "He", "x", "garbage"⟩

/-- Witness for C8: loading a one-row table under a parser that fails on
every string yields that row with the null timestamp marker. -/
theorem load_data_coerce_witness :
    (load_data (fun _ => none) (some [rawSample])).get? 0
      = some (0, ⟨rawSample.amount, rawSample.category, rawSample.person,
                  rawSample.description, (fun _ => none) rawSample.timestampRaw⟩) :=
  ((load_data_coerce (fun _ => none)).2 [rawSample]).2 0 rawSample rfl

/-- The five schema columns of the expense table, in order, as written in
`load_data` (line 40), `add_expense`'s `new_row` (lines 47-53) and
`clear_all` (line 73). -/
def schemaCols : List String :=
  ["Amount", "Type", "Person", "Description", "Timestamp"]

/-- Column list of `pd.concat([a, b])`: the first frame's columns
followed by any columns of the second not already present (pandas union
semantics with `sort=False`). -/
def concat_cols (a b : List String) : List String :=
  a ++ b.filter fun c => !a.contains c

/-- C10.  `load_data` on a missing file and `clear_all` both produce the
same empty, correctly-typed frame (so the two empty collections are
interchangeable, and `clear_all` persists that empty collection), and
appending `add_expense`'s five-column `new_row` to a frame carrying the
five schema columns leaves the columns exactly
`Amount, Type, Person, Description, Timestamp` in that order. -/
theorem schema_preserved : ∀ parse : String → Option Timestamp,
    load_data parse none = ([] : DF) ∧
    clear_all = (([] : DF), some ([] : List Record)) ∧
    load_data parse none = clear_all.1 ∧
    concat_cols schemaCols schemaCols = schemaCols := by
  intro parse
  refine ⟨rfl, rfl, rfl, by decide⟩
